import Mathlib

/-!
Verification of the eb-classifier core (text extraction, analysis client,
result aggregation) against its natural-language specification.

The Python sources are shallowly embedded: strings become `List Char` (or
`String` for record fields), regex substitutions become explicit scanning
functions with the same semantics, and in-place mutation becomes explicit
state passing.  Python method names are kept, with leading underscores
dropped.
-/

namespace EBC

/-! ## Character classes

`isPySpace` is the exact character set for which CPython's `str.isspace()`
returns `True`; the same set backs the regex whitespace class on `str`
patterns and `str.strip()` with no arguments. -/

def isPySpace (c : Char) : Bool :=
  (9 ≤ c.toNat && c.toNat ≤ 13) || (28 ≤ c.toNat && c.toNat ≤ 31) ||
  c.toNat == 32 || c.toNat == 133 || c.toNat == 160 || c.toNat == 5760 ||
  (8192 ≤ c.toNat && c.toNat ≤ 8202) || c.toNat == 8232 || c.toNat == 8233 ||
  c.toNat == 8239 || c.toNat == 8287 || c.toNat == 12288

/-- Printable ASCII, the range 0x20 to 0x7E. -/
def printableAscii (c : Char) : Bool := 32 ≤ c.toNat && c.toNat ≤ 126

/-! ## pdf_processor.PDFProcessor._clean_text

The method applies, in order:
1. `re.sub(r'\s+', ' ', text)`              — `collapseWhitespace`
2. `re.sub(r'\n\s*\n\s*\n+', '\n\n', text)` — `collapseBlankLines`
3. `text.strip()`                           — `pyStrip`
4. `re.sub(r'[\x00-\x1f\x7f-\x9f]', '', text)` — `removeControl`
5. `re.sub(r'[^\x20-\x7E\n\r\t]', '', text)`   — `keepPrintable`
-/

/-- Scanner for `re.sub` of a one-or-more run of characters satisfying `p`
by the single character `rep`: a maximal run is replaced by one `rep`.
The `Bool` argument tracks whether the scan is inside a run whose
replacement has already been emitted. -/
def collapseRunsGo (p : Char → Bool) (rep : Char) : Bool → List Char → List Char
  | _, [] => []
  | true, c :: rest =>
    if p c then collapseRunsGo p rep true rest
    else c :: collapseRunsGo p rep false rest
  | false, c :: rest =>
    if p c then rep :: collapseRunsGo p rep true rest
    else c :: collapseRunsGo p rep false rest

def collapseRuns (p : Char → Bool) (rep : Char) (l : List Char) : List Char :=
  collapseRunsGo p rep false l

/-- Step 1: `re.sub(r'\s+', ' ', text)`. -/
def collapseWhitespace (l : List Char) : List Char := collapseRuns isPySpace ' ' l

/-- Length of the maximal whitespace run at the head, the most a greedy
whitespace star can consume. -/
def wsPrefLen (l : List Char) : Nat := (l.takeWhile isPySpace).length

/-- Backtracking for a greedy whitespace star followed by continuation `k`:
try consuming `n` characters first, then `n-1`, ..., down to `0`. -/
def tryFrom (k : List Char → Option (List Char)) (l : List Char) : Nat → Option (List Char)
  | 0 => k l
  | n + 1 =>
    match k (l.drop (n + 1)) with
    | some r => some r
    | none => tryFrom k l n

/-- Greedy match of a one-or-more run of newlines (the final part of the
blank-line pattern); returns the remainder after the run. -/
def matchNlRun : List Char → Option (List Char)
  | c :: rest => if c = '\n' then some (rest.dropWhile (fun d => d == '\n')) else none
  | [] => none

/-- Whitespace star then one-or-more newlines. -/
def matchP2 (l : List Char) : Option (List Char) := tryFrom matchNlRun l (wsPrefLen l)

/-- Whitespace star, then a literal newline, then `matchP2`. -/
def matchP1 (l : List Char) : Option (List Char) :=
  tryFrom (fun l2 =>
    match l2 with
    | c :: r => if c = '\n' then matchP2 r else none
    | [] => none) l (wsPrefLen l)

/-- Match of the pattern newline, whitespace star, newline, whitespace star,
one-or-more newlines, at the head of the list; returns the remainder after
the (greedy, backtracking) match. -/
def matchBlankPat : List Char → Option (List Char)
  | c :: rest => if c = '\n' then matchP1 rest else none
  | [] => none

/-- Scanner for step 2: at each position, if the blank-line pattern matches,
emit two newlines and continue after the match; otherwise copy the character.
A successful match consumes at least three characters, so fuel equal to the
input length never runs out. -/
def collapseBLGo : Nat → List Char → List Char
  | _, [] => []
  | 0, l => l
  | fuel + 1, c :: rest =>
    match matchBlankPat (c :: rest) with
    | some r => '\n' :: '\n' :: collapseBLGo fuel r
    | none => c :: collapseBLGo fuel rest

/-- Step 2: `re.sub(r'\n\s*\n\s*\n+', '\n\n', text)`. -/
def collapseBlankLines (l : List Char) : List Char := collapseBLGo l.length l

/-- Python `str.strip` semantics: drop characters satisfying `p` from both
ends. -/
def stripEnds (p : Char → Bool) (l : List Char) : List Char :=
  ((l.dropWhile p).reverse.dropWhile p).reverse

/-- Step 3: `text.strip()`. -/
def pyStrip (l : List Char) : List Char := stripEnds isPySpace l

/-- The character class `[\x00-\x1f\x7f-\x9f]` removed by step 4. -/
def isControlByte (c : Char) : Bool := c.toNat ≤ 31 || (127 ≤ c.toNat && c.toNat ≤ 159)

/-- Step 4: remove control characters. -/
def removeControl (l : List Char) : List Char := l.filter (fun c => !(isControlByte c))

/-- Step 5: keep only printable ASCII plus newline, carriage return, tab. -/
def keepPrintable (l : List Char) : List Char :=
  l.filter (fun c => printableAscii c || c == '\n' || c == '\r' || c == '\t')

/-- `PDFProcessor._clean_text` (the `if not text` guard is subsumed: every
step maps the empty list to itself). -/
def clean_text (l : List Char) : List Char :=
  keepPrintable (removeControl (pyStrip (collapseBlankLines (collapseWhitespace l))))

/-! ## Lemmas about the cleaning pipeline -/

theorem mem_collapseRunsGo (p : Char → Bool) (rep : Char) :
    ∀ (l : List Char) (b : Bool) (c : Char), c ∈ collapseRunsGo p rep b l →
      c = rep ∨ (c ∈ l ∧ p c = false) := by
  intro l
  induction l with
  | nil => intro b c h; cases b <;> simp [collapseRunsGo] at h
  | cons d rest ih =>
    intro b c h
    by_cases hp : p d
    · cases b with
      | true =>
        simp only [collapseRunsGo, if_pos hp] at h
        rcases ih true c h with h1 | h2
        · exact Or.inl h1
        · exact Or.inr ⟨List.mem_cons_of_mem _ h2.1, h2.2⟩
      | false =>
        simp only [collapseRunsGo, if_pos hp] at h
        rcases List.mem_cons.mp h with h1 | h1
        · exact Or.inl h1
        · rcases ih true c h1 with h2 | h3
          · exact Or.inl h2
          · exact Or.inr ⟨List.mem_cons_of_mem _ h3.1, h3.2⟩
    · cases b <;> simp only [collapseRunsGo, if_neg hp] at h <;>
        rcases List.mem_cons.mp h with h1 | h1
      · subst h1; exact Or.inr ⟨List.mem_cons_self _ _, Bool.eq_false_iff.mpr hp⟩
      · rcases ih false c h1 with h2 | h3
        · exact Or.inl h2
        · exact Or.inr ⟨List.mem_cons_of_mem _ h3.1, h3.2⟩
      · subst h1; exact Or.inr ⟨List.mem_cons_self _ _, Bool.eq_false_iff.mpr hp⟩
      · rcases ih false c h1 with h2 | h3
        · exact Or.inl h2
        · exact Or.inr ⟨List.mem_cons_of_mem _ h3.1, h3.2⟩

theorem collapseWhitespace_no_newline (l : List Char) : '\n' ∉ collapseWhitespace l := by
  intro h
  rcases mem_collapseRunsGo isPySpace ' ' l false '\n' h with h1 | h2
  · exact absurd h1 (by decide)
  · exact absurd h2.2 (by decide)

theorem collapseBLGo_id : ∀ (fuel : Nat) (l : List Char), '\n' ∉ l → collapseBLGo fuel l = l := by
  intro fuel
  induction fuel with
  | zero => intro l _; cases l <;> rfl
  | succ f ih =>
    intro l h
    cases l with
    | nil => rfl
    | cons c rest =>
      have hc : c ≠ '\n' := fun hc => h (hc ▸ List.mem_cons_self _ _)
      have hrest : '\n' ∉ rest := fun hr => h (List.mem_cons_of_mem _ hr)
      simp only [collapseBLGo, matchBlankPat, if_neg hc]
      rw [ih rest hrest]

theorem collapseBlankLines_id (l : List Char) (h : '\n' ∉ l) : collapseBlankLines l = l :=
  collapseBLGo_id l.length l h

/-- Because step 1 turns every whitespace character (newlines included) into
a space, step 2 never changes anything: the pipeline reduces to steps 1,3,4,5. -/
theorem clean_text_eq (l : List Char) :
    clean_text l = keepPrintable (removeControl (pyStrip (collapseWhitespace l))) := by
  unfold clean_text
  rw [collapseBlankLines_id _ (collapseWhitespace_no_newline l)]

theorem mem_clean_text_printable (l : List Char) (c : Char) (h : c ∈ clean_text l) :
    printableAscii c = true := by
  rw [clean_text_eq] at h
  unfold keepPrintable at h
  rcases List.mem_filter.mp h with ⟨h1, h2⟩
  unfold removeControl at h1
  rcases List.mem_filter.mp h1 with ⟨_, h3⟩
  have hctl : isControlByte c = false := by
    cases hcb : isControlByte c
    · rfl
    · rw [hcb] at h3; simp at h3
  unfold isControlByte at hctl
  unfold printableAscii
  rcases Bool.or_eq_true _ _ |>.mp h2 with h4 | h4
  · rcases Bool.or_eq_true _ _ |>.mp h4 with h5 | h5
    · rcases Bool.or_eq_true _ _ |>.mp h5 with h6 | h6
      · exact h6
      · have : c = '\n' := by simpa using h6
        subst this; simp at hctl
    · have : c = '\r' := by simpa using h5
      subst this; simp at hctl
  · have : c = '\t' := by simpa using h4
    subst this; simp at hctl

theorem no_newline_clean_text (l : List Char) : '\n' ∉ clean_text l := by
  intro h
  have := mem_clean_text_printable l '\n' h
  exact absurd this (by decide)

theorem no_tab_clean_text (l : List Char) : '\t' ∉ clean_text l := by
  intro h
  have := mem_clean_text_printable l '\t' h
  exact absurd this (by decide)

theorem dropWhile_head_not (p : Char → Bool) :
    ∀ l : List Char, ((l.dropWhile p).head?.all fun c => !p c) = true := by
  intro l
  induction l with
  | nil => rfl
  | cons c rest ih =>
    by_cases hp : p c
    · simpa [List.dropWhile_cons, hp] using ih
    · simp [List.dropWhile_cons, hp, Bool.eq_false_iff.mpr hp]

theorem stripEnds_last (p : Char → Bool) (l : List Char) :
    ((stripEnds p l).getLast?.all fun c => !p c) = true := by
  unfold stripEnds
  rw [List.getLast?_reverse]
  exact dropWhile_head_not p _

theorem stripEnds_head (p : Char → Bool) (l : List Char) :
    ((stripEnds p l).head?.all fun c => !p c) = true := by
  unfold stripEnds
  rw [List.head?_reverse]
  rcases hz : (l.dropWhile p).reverse.dropWhile p with _ | ⟨a, z⟩
  · rfl
  · have hsuf : (a :: z) <:+ (l.dropWhile p).reverse := hz ▸ List.dropWhile_suffix p
    rcases hsuf with ⟨u, hu⟩
    have h1 : (a :: z).getLast? = (u ++ a :: z).getLast? :=
      (List.getLast?_append_of_ne_nil _ (by simp)).symm
    rw [h1, hu, List.getLast?_reverse]
    exact dropWhile_head_not p _

theorem mem_stripEnds (p : Char → Bool) (l : List Char) (c : Char)
    (h : c ∈ stripEnds p l) : c ∈ l := by
  unfold stripEnds at h
  rw [List.mem_reverse] at h
  have h1 : c ∈ (l.dropWhile p).reverse := (List.dropWhile_suffix p).sublist.subset h
  rw [List.mem_reverse] at h1
  exact (List.dropWhile_suffix p).sublist.subset h1

theorem printable_not_control (c : Char) (h : printableAscii c = true) :
    isControlByte c = false := by
  unfold printableAscii at h
  unfold isControlByte
  simp only [Bool.and_eq_true, decide_eq_true_eq] at h
  simp only [Bool.or_eq_false_iff, Bool.and_eq_false_iff, decide_eq_false_iff_not]
  omega

/-- When every character of the input survives steps 4 and 5 (it is either
whitespace, which step 1 rewrites to a space, or printable ASCII), the
pipeline reduces to collapse-then-strip, so the stripped ends stay stripped. -/
theorem clean_text_eq_strip (l : List Char)
    (hgood : ∀ c ∈ l, isPySpace c = true ∨ printableAscii c = true) :
    clean_text l = pyStrip (collapseWhitespace l) := by
  rw [clean_text_eq]
  have hmem : ∀ c ∈ pyStrip (collapseWhitespace l), printableAscii c = true := by
    intro c hc
    have hc' : c ∈ collapseWhitespace l := mem_stripEnds _ _ _ hc
    rcases mem_collapseRunsGo isPySpace ' ' l false c hc' with h1 | h2
    · subst h1; decide
    · rcases hgood c h2.1 with h3 | h3
      · rw [h2.2] at h3; exact absurd h3 (by decide)
      · exact h3
  have h4 : removeControl (pyStrip (collapseWhitespace l)) = pyStrip (collapseWhitespace l) := by
    unfold removeControl
    refine List.filter_eq_self.mpr fun c hc => ?_
    rw [printable_not_control c (hmem c hc)]
    rfl
  have h5 : keepPrintable (pyStrip (collapseWhitespace l)) = pyStrip (collapseWhitespace l) := by
    unfold keepPrintable
    refine List.filter_eq_self.mpr fun c hc => ?_
    rw [hmem c hc]
    rfl
  rw [h4, h5]

/-- Claim C1 (amended). For every text, the cleaned output contains only
printable-ASCII characters plus newline and tab and no run of three or more
consecutive newlines; and, provided every input character is either
whitespace or printable ASCII, it has no leading or trailing whitespace.
(Unrestricted, the last part fails: steps 4 and 5 delete control and
non-ASCII characters after the strip, which can expose a space at an end.) -/
theorem claim_C1 : ∀ l : List Char,
    ((clean_text l).all fun c => printableAscii c || c == '\n' || c == '\t') = true ∧
    ¬ (['\n', '\n', '\n'] <:+: clean_text l) ∧
    ((∀ c ∈ l, isPySpace c = true ∨ printableAscii c = true) →
      ((clean_text l).head?.all fun c => !isPySpace c) = true ∧
      ((clean_text l).getLast?.all fun c => !isPySpace c) = true) := by
  intro l
  refine ⟨?_, ?_, ?_⟩
  · rw [List.all_eq_true]
    intro c hc
    simp [mem_clean_text_printable l c hc]
  · intro h
    have hmem : '\n' ∈ clean_text l := h.sublist.subset (by simp)
    exact no_newline_clean_text l hmem
  · intro hgood
    rw [clean_text_eq_strip l hgood]
    exact ⟨stripEnds_head isPySpace _, stripEnds_last isPySpace _⟩

/-- Counterexample to claim C1 as stated: on the input NUL, space, letter a,
the NUL character survives collapsing (it is not regex whitespace) and
shields the space from `strip()`; step 4 then deletes the NUL, leaving the
cleaned output with a leading space. -/
theorem claim_C1_cx :
    ¬ (((clean_text ['\x00', ' ', 'a']).all fun c =>
          printableAscii c || c == '\n' || c == '\t') = true ∧
       ¬ (['\n', '\n', '\n'] <:+: clean_text ['\x00', ' ', 'a']) ∧
       ((clean_text ['\x00', ' ', 'a']).head?.all fun c => !isPySpace c) = true ∧
       ((clean_text ['\x00', ' ', 'a']).getLast?.all fun c => !isPySpace c) = true) := by
  decide

theorem claim_C1_witness :
    ((clean_text " model  text ".toList).head?.all fun c => !isPySpace c) = true ∧
    ((clean_text " model  text ".toList).getLast?.all fun c => !isPySpace c) = true :=
  (claim_C1 " model  text ".toList).2.2 (by decide)

/-- Claim C10. For every input text, the cleaned output of the extractor's
sanitization contains no newline and no tab character at all: whitespace
collapsing to single spaces runs before the blank-line step, every newline
and tab becomes a space, the output is a single line, and the
blank-line-collapsing step never changes anything. -/
theorem claim_C10 : ∀ l : List Char,
    '\n' ∉ clean_text l ∧ '\t' ∉ clean_text l ∧
    collapseBlankLines (collapseWhitespace l) = collapseWhitespace l := by
  intro l
  exact ⟨no_newline_clean_text l, no_tab_clean_text l,
    collapseBlankLines_id _ (collapseWhitespace_no_newline l)⟩

/-! ## pdf_processor.PDFProcessor._is_text_sufficient and extract_text_from_pdf -/

/-- The `ocr_threshold` attribute set in `PDFProcessor.__init__`. -/
def ocr_threshold : Nat := 50

/-- `PDFProcessor._is_text_sufficient`: empty text is insufficient; otherwise
remove all whitespace (`re.sub` of the whitespace class by the empty string)
and compare the remaining length against the threshold. -/
def is_text_sufficient (text : List Char) : Bool :=
  if text = [] then false
  else ocr_threshold ≤ (text.filter fun c => !isPySpace c).length

structure ExtractResult where
  text : List Char
  success : Bool
  error : Option String
deriving DecidableEq

/-- `PDFProcessor.extract_text_from_pdf`, with the two extraction back-ends
(pdfplumber native text, pytesseract OCR) abstracted as the inputs `native`
and `ocr`: if the native text is sufficient it is cleaned and returned;
otherwise, a non-empty OCR text is cleaned and returned; otherwise the
extraction fails with a descriptive message. -/
def extract_text_from_pdf (native ocr : List Char) (filename : String) : ExtractResult :=
  if is_text_sufficient native then ⟨clean_text native, true, none⟩
  else if ocr ≠ [] then ⟨clean_text ocr, true, none⟩
  else ⟨[], false, some ("Both native and OCR text extraction failed for " ++ filename)⟩

/-! ## results_manager.ResultsManager state

`datetime.now()` values are passed in as explicit `timestamp` arguments. -/

structure Verdict where
  article_title : String
  inclusion_decision : String
  justification : String
  category : String
  detailed_reasoning : String
deriving DecidableEq

structure ResultRow where
  article_title : String
  inclusion_exclusion_decision : String
  category : String
  detailed_reasoning_for_decision : String
  citation : String
  open_access_url : String
  confidence : String
  source_file : String
  timestamp : String
deriving DecidableEq

structure ErrorRecord where
  source_file : String
  error_message : String
  timestamp : String
deriving DecidableEq

structure RMState where
  results : List ResultRow
  errors : List ErrorRecord
deriving DecidableEq

/-- `ResultsManager.add_result`: project the verdict into a CSV row (the
enrichment placeholders stay empty) and append it.  The `try/except` in the
source cannot fire for a well-formed dictionary input, which the typed
`Verdict` models. -/
def add_result (st : RMState) (v : Verdict) (source_file timestamp : String) : RMState :=
  { st with results := st.results ++ [{
      article_title := v.article_title
      inclusion_exclusion_decision := v.inclusion_decision
      category := v.category
      detailed_reasoning_for_decision := v.detailed_reasoning
      citation := ""
      open_access_url := ""
      confidence := ""
      source_file := source_file
      timestamp := timestamp }] }

/-- `ResultsManager.add_error`: append an error record. -/
def add_error (st : RMState) (source_file error_message timestamp : String) : RMState :=
  { st with errors := st.errors ++ [⟨source_file, error_message, timestamp⟩] }

structure Stats where
  total_processed : Nat
  successful : Nat
  failed : Nat
deriving DecidableEq

/-- `ResultsManager.get_stats`. -/
def get_stats (st : RMState) : Stats :=
  ⟨st.results.length + st.errors.length, st.results.length, st.errors.length⟩

/-! ## The per-document driver loop (app.py)

After `extract_text_from_pdf` returns, the loop either records an error and
skips the document (`continue`) or hands the extracted text to the analysis
client. -/

inductive DriverAction where
  | analyzeDoc (text : List Char)
  | skipDoc
deriving DecidableEq

/-- Steps 2 and 3 of the driver loop: on extraction failure, record the
error and skip; on success, proceed to analysis with the extracted text. -/
def driver_step (st : RMState) (filename timestamp : String) (r : ExtractResult) :
    RMState × DriverAction :=
  if r.success then (st, DriverAction.analyzeDoc r.text)
  else (add_error st filename ("Text extraction failed: " ++ r.error.getD "") timestamp,
        DriverAction.skipDoc)

/-- Claim C3. The sufficiency check strips all whitespace and declares the
text insufficient exactly when the remaining character count is less than
50; whitespace-stripped length 49 is insufficient (OCR fallback), 50 is not. -/
theorem claim_C3 : ∀ text : List Char,
    (is_text_sufficient text = false ↔ (text.filter fun c => !isPySpace c).length < 50) ∧
    is_text_sufficient (List.replicate 49 'a') = false ∧
    is_text_sufficient (List.replicate 50 'a') = true := by
  intro text
  refine ⟨?_, by decide, by decide⟩
  unfold is_text_sufficient ocr_threshold
  by_cases h : text = []
  · subst h; simp
  · rw [if_neg h]
    simp only [decide_eq_false_iff_not, not_le]

/-- Claim C9. When native extraction is insufficient and OCR yields empty
text, extraction fails with empty text, a false success flag and a non-empty
error message, and the driver loop records the error and skips analysis. -/
theorem claim_C9 : ∀ (native ocr : List Char) (filename timestamp : String) (st : RMState),
    is_text_sufficient native = false → ocr = [] →
    (extract_text_from_pdf native ocr filename).text = [] ∧
    (extract_text_from_pdf native ocr filename).success = false ∧
    (∃ m, (extract_text_from_pdf native ocr filename).error = some m ∧ m ≠ "") ∧
    driver_step st filename timestamp (extract_text_from_pdf native ocr filename) =
      (add_error st filename
        ("Text extraction failed: " ++
          ("Both native and OCR text extraction failed for " ++ filename))
        timestamp, DriverAction.skipDoc) := by
  intro native ocr filename timestamp st hsuff hocr
  subst hocr
  have hx : extract_text_from_pdf native [] filename =
      ⟨[], false, some ("Both native and OCR text extraction failed for " ++ filename)⟩ := by
    unfold extract_text_from_pdf
    rw [hsuff]
    simp
  refine ⟨by rw [hx], by rw [hx], ⟨_, by rw [hx], ?_⟩, ?_⟩
  · intro hm
    have h0 := congrArg String.length hm
    rw [String.length_append] at h0
    have h1 : ("Both native and OCR text extraction failed for " : String).length = 47 := by
      decide
    have h2 : ("" : String).length = 0 := by decide
    rw [h1, h2] at h0
    omega
  · rw [hx]
    unfold driver_step
    simp [Option.getD]

theorem claim_C9_witness :
    (extract_text_from_pdf "short".toList [] "doc.pdf").success = false ∧
    (∃ m, (extract_text_from_pdf "short".toList [] "doc.pdf").error = some m ∧ m ≠ "") ∧
    driver_step ⟨[], []⟩ "doc.pdf" "2026-01-01" (extract_text_from_pdf "short".toList [] "doc.pdf") =
      (add_error ⟨[], []⟩ "doc.pdf"
        ("Text extraction failed: " ++
          ("Both native and OCR text extraction failed for " ++ "doc.pdf"))
        "2026-01-01", DriverAction.skipDoc) := by
  have h := claim_C9 "short".toList [] "doc.pdf" "2026-01-01" ⟨[], []⟩ (by decide) rfl
  exact ⟨h.2.1, h.2.2.1, h.2.2.2⟩

/-! ## llm_client.LLMClient.analyze_paper (token-budget triage and dispatch)

The two network back-ends are abstracted as dispatch outcomes; the hard
size cutoff returns a refusal before any dispatch. -/

inductive AnalyzeOutcome where
  | refusedTooLarge (estimated_tokens : Nat)
  | dispatchOpenAI
  | dispatchAnthropic
  | unsupportedModel
deriving DecidableEq

/-- ASCII case folding, the fragment of Python `str.lower()` relevant to
the model-name pipeline (every non-ASCII character is later replaced by a
dash, so only the ASCII letters matter). -/
def asciiLowerChar (c : Char) : Char :=
  if 65 ≤ c.toNat ∧ c.toNat ≤ 90 then Char.ofNat (c.toNat + 32) else c

/-- Python substring containment `pat in l`. -/
def containsSub (pat l : List Char) : Bool := l.tails.any fun t => pat.isPrefixOf t

/-- `LLMClient.analyze_paper`: estimate tokens as length divided by 4;
refuse over 180000; otherwise dispatch on a lower-cased substring match of
the model selector (the intermediate size thresholds only log). -/
def analyze_paper (paper_text model : List Char) : AnalyzeOutcome :=
  let estimated_tokens := paper_text.length / 4
  if 180000 < estimated_tokens then AnalyzeOutcome.refusedTooLarge estimated_tokens
  else if containsSub "o3".toList (model.map asciiLowerChar) then AnalyzeOutcome.dispatchOpenAI
  else if containsSub "claude".toList (model.map asciiLowerChar) then AnalyzeOutcome.dispatchAnthropic
  else AnalyzeOutcome.unsupportedModel

/-- Whether the outcome is the document-too-large refusal (no back-end is
consulted in that case). -/
def isRefusal : AnalyzeOutcome → Bool
  | AnalyzeOutcome.refusedTooLarge _ => true
  | _ => false

theorem isRefusal_analyze (text model : List Char) :
    isRefusal (analyze_paper text model) = true ↔ 180000 < text.length / 4 := by
  unfold analyze_paper
  by_cases h : 180000 < text.length / 4
  · simp [h, isRefusal]
  · rw [if_neg h]
    cases hc1 : containsSub "o3".toList (model.map asciiLowerChar) <;>
      cases hc2 : containsSub "claude".toList (model.map asciiLowerChar) <;>
      simp [hc1, hc2, isRefusal, h]

/-- Claim C2. `analyze_paper` refuses with the document-too-large error,
without consulting any back-end, if and only if the length divided by 4
exceeds 180000; length exactly 180000 times 4 is not refused, 180001 times 4
is refused, whatever the model selector. -/
theorem claim_C2 : ∀ text model : List Char,
    (isRefusal (analyze_paper text model) = true ↔ 180000 < text.length / 4) ∧
    isRefusal (analyze_paper (List.replicate (180000 * 4) 'a') model) = false ∧
    isRefusal (analyze_paper (List.replicate (180001 * 4) 'a') model) = true := by
  intro text model
  refine ⟨isRefusal_analyze text model, ?_, ?_⟩
  · have h := isRefusal_analyze (List.replicate (180000 * 4) 'a') model
    rw [List.length_replicate] at h
    norm_num at h
    exact (Bool.not_eq_true _) ▸ h
  · have h := isRefusal_analyze (List.replicate (180001 * 4) 'a') model
    rw [List.length_replicate] at h
    norm_num at h
    exact h

/-! ## llm_client.LLMClient.validate_result -/

def valid_categories : List String :=
  ["Client", "FLW", "Feasibility", "Data", "Grey Literature", "N/A"]

/-- Python blankness test `not value or not value.strip()` for a string
field: true exactly when every character is whitespace (including the empty
string). -/
def isBlankStr (s : String) : Bool := s.toList.all isPySpace

structure ValidationOut where
  ok : Bool
  error : Option String
  result : Verdict
deriving DecidableEq

/-- `LLMClient.validate_result`.  The missing-field check of the source
cannot fire for the typed record; the blank checks run in the source's field
order, then the enum checks, then the Excluded-implies-NA normalization
(mutation of the dict is modelled by returning the updated record). -/
def validate_result (r : Verdict) : ValidationOut :=
  if isBlankStr r.article_title then ⟨false, some "Empty required field: article_title", r⟩
  else if isBlankStr r.inclusion_decision then
    ⟨false, some "Empty required field: inclusion_decision", r⟩
  else if isBlankStr r.justification then ⟨false, some "Empty required field: justification", r⟩
  else if isBlankStr r.category then ⟨false, some "Empty required field: category", r⟩
  else if isBlankStr r.detailed_reasoning then
    ⟨false, some "Empty required field: detailed_reasoning", r⟩
  else if r.inclusion_decision ≠ "Included" ∧ r.inclusion_decision ≠ "Excluded" then
    ⟨false, some ("Invalid inclusion_decision: " ++ r.inclusion_decision), r⟩
  else if r.category ∉ valid_categories then ⟨false, some ("Invalid category: " ++ r.category), r⟩
  else if r.inclusion_decision = "Excluded" ∧ r.category ≠ "N/A" then
    ⟨true, none, { r with category := "N/A" }⟩
  else ⟨true, none, r⟩

/-- Claim C4. A verdict with non-blank fields and valid enums whose decision
is Excluded and category is not NA validates successfully with the category
rewritten to NA, and re-validating the corrected record succeeds and leaves
it unchanged. -/
theorem claim_C4 : ∀ r : Verdict,
    isBlankStr r.article_title = false → isBlankStr r.inclusion_decision = false →
    isBlankStr r.justification = false → isBlankStr r.category = false →
    isBlankStr r.detailed_reasoning = false →
    r.inclusion_decision = "Excluded" →
    r.category ∈ valid_categories → r.category ≠ "N/A" →
    validate_result r = ⟨true, none, { r with category := "N/A" }⟩ ∧
    validate_result { r with category := "N/A" } = ⟨true, none, { r with category := "N/A" }⟩ := by
  intro r h1 h2 h3 h4 h5 hdec hmem hne
  constructor
  · unfold validate_result
    simp [h1, h2, h3, h4, h5, hdec, hmem, hne,
      show isBlankStr "Excluded" = false from by decide]
  · unfold validate_result
    simp [h1, h2, h3, h5, hdec,
      show isBlankStr "Excluded" = false from by decide,
      show isBlankStr "N/A" = false from by decide,
      show ("N/A" : String) ∈ valid_categories from by decide]

theorem claim_C4_witness :
    validate_result ⟨"Title", "Excluded", "Just", "Client", "Reasoning"⟩ =
      ⟨true, none, ⟨"Title", "Excluded", "Just", "N/A", "Reasoning"⟩⟩ ∧
    validate_result ⟨"Title", "Excluded", "Just", "N/A", "Reasoning"⟩ =
      ⟨true, none, ⟨"Title", "Excluded", "Just", "N/A", "Reasoning"⟩⟩ :=
  claim_C4 ⟨"Title", "Excluded", "Just", "Client", "Reasoning"⟩
    (by decide) (by decide) (by decide) (by decide) (by decide) rfl (by decide) (by decide)

/-! ## Interleavings of aggregator operations (claim C5) -/

inductive RMOp where
  | opResult (v : Verdict) (source_file timestamp : String)
  | opError (source_file error_message timestamp : String)

def applyOp (st : RMState) : RMOp → RMState
  | RMOp.opResult v src ts => add_result st v src ts
  | RMOp.opError src msg ts => add_error st src msg ts

/-- The state built by `ResultsManager.__init__`: no results, no errors. -/
def initState : RMState := ⟨[], []⟩

def runOps (ops : List RMOp) : RMState := ops.foldl applyOp initState

def isResultOp : RMOp → Bool
  | RMOp.opResult _ _ _ => true
  | RMOp.opError _ _ _ => false

theorem runOps_lengths (ops : List RMOp) : ∀ st : RMState,
    (ops.foldl applyOp st).results.length =
      st.results.length + ops.countP (fun o => isResultOp o) ∧
    (ops.foldl applyOp st).errors.length =
      st.errors.length + ops.countP (fun o => !isResultOp o) := by
  induction ops with
  | nil => intro st; simp
  | cons o rest ih =>
    intro st
    rcases ih (applyOp st o) with ⟨ha, hb⟩
    constructor
    · rw [List.foldl_cons, ha, List.countP_cons]
      cases o <;> simp [applyOp, add_result, add_error, isResultOp] <;> omega
    · rw [List.foldl_cons, hb, List.countP_cons]
      cases o <;> simp [applyOp, add_result, add_error, isResultOp] <;> omega

/-- Claim C5. For every batch state reached by any interleaving of N calls
to add_result and M calls to add_error, get_stats returns exactly total
N+M, successful N, failed M; in particular successful plus failed equals
total_processed. -/
theorem claim_C5 : ∀ ops : List RMOp,
    get_stats (runOps ops) =
      ⟨ops.countP (fun o => isResultOp o) + ops.countP (fun o => !isResultOp o),
       ops.countP (fun o => isResultOp o), ops.countP (fun o => !isResultOp o)⟩ ∧
    (get_stats (runOps ops)).successful + (get_stats (runOps ops)).failed =
      (get_stats (runOps ops)).total_processed := by
  intro ops
  rcases runOps_lengths ops initState with ⟨ha, hb⟩
  unfold runOps
  constructor
  · unfold get_stats
    rw [ha, hb]
    simp [initState]
  · unfold get_stats
    rfl

/-! ## CSV export (claim C6) -/

/-- The CSV headers fixed in `ResultsManager.__init__`. -/
def csv_headers : List String :=
  ["article_title", "inclusion_exclusion_decision", "category",
   "detailed_reasoning_for_decision", "citation", "open_access_url",
   "confidence", "source_file", "timestamp"]

/-- Minimal-quoting rule of the csv module's default dialect: a field is
quoted when it contains the delimiter, the quote character, or a character
of the line terminator. -/
def csvNeedsQuote (s : String) : Bool :=
  s.toList.any fun c => c == ',' || c == '"' || c == '\r' || c == '\n'

def csvQuoteField (s : String) : String :=
  if csvNeedsQuote s then
    "\"" ++ String.mk (s.toList.flatMap fun c => if c = '"' then ['"', '"'] else [c]) ++ "\""
  else s

/-- One CSV record in the csv module's default (excel) dialect:
comma-separated fields, CRLF line terminator. -/
def csvLine (fields : List String) : String :=
  String.intercalate "," (fields.map csvQuoteField) ++ "\r\n"

/-- The order `DictWriter` writes a row's values, following `csv_headers`. -/
def rowFields (r : ResultRow) : List String :=
  [r.article_title, r.inclusion_exclusion_decision, r.category,
   r.detailed_reasoning_for_decision, r.citation, r.open_access_url,
   r.confidence, r.source_file, r.timestamp]

/-- The file content written by `ResultsManager.export_to_csv`:
`writeheader()` then one record per accumulated result row. -/
def export_to_csv_content (st : RMState) : String :=
  csvLine csv_headers ++ String.join (st.results.map fun r => csvLine (rowFields r))

/-- Claim C6. Exporting a batch with zero accumulated result rows produces
exactly the nine-column header row and nothing else. -/
theorem claim_C6 : ∀ errors : List ErrorRecord,
    export_to_csv_content ⟨[], errors⟩ =
      "article_title,inclusion_exclusion_decision,category,detailed_reasoning_for_decision,citation,open_access_url,confidence,source_file,timestamp\r\n" ∧
    csv_headers.length = 9 := by
  intro errors
  exact ⟨rfl, rfl⟩

/-! ## results_manager.ResultsManager.get_results_summary (claim C8) -/

/-- Decimal rendering of a natural number, as Python formats a non-negative
int.  Fuel-based so it reduces by evaluation; fuel `n + 1` always suffices
because the quotient shrinks at every step. -/
def natDigitsGo : Nat → Nat → List Char
  | 0, _ => []
  | f + 1, n =>
    if n < 10 then [Nat.digitChar n]
    else natDigitsGo f (n / 10) ++ [Nat.digitChar (n % 10)]

def natDigits (n : Nat) : List Char := natDigitsGo (n + 1) n

theorem digitChar_range (n : Nat) (h : n < 10) :
    48 ≤ (Nat.digitChar n).toNat ∧ (Nat.digitChar n).toNat ≤ 57 := by
  interval_cases n <;> decide

theorem mem_natDigitsGo : ∀ (f n : Nat) (c : Char), c ∈ natDigitsGo f n →
    48 ≤ c.toNat ∧ c.toNat ≤ 57 := by
  intro f
  induction f with
  | zero => intro n c h; simp [natDigitsGo] at h
  | succ f ih =>
    intro n c h
    by_cases hn : n < 10
    · simp only [natDigitsGo, if_pos hn, List.mem_singleton] at h
      subst h
      exact digitChar_range n hn
    · simp only [natDigitsGo, if_neg hn, List.mem_append, List.mem_singleton] at h
      rcases h with h | h
      · exact ih _ c h
      · subst h
        exact digitChar_range _ (Nat.mod_lt _ (by norm_num))

theorem mem_natDigits_range (n : Nat) (c : Char) (h : c ∈ natDigits n) :
    48 ≤ c.toNat ∧ c.toNat ≤ 57 :=
  mem_natDigitsGo _ _ _ h

/-- `sum(1 for r in results if decision == 'Included')`. -/
def countIncluded (rows : List ResultRow) : Nat :=
  (rows.filter fun r => r.inclusion_exclusion_decision == "Included").length

/-- `sum(1 for r in results if decision == 'Excluded')`. -/
def countExcluded (rows : List ResultRow) : Nat :=
  (rows.filter fun r => r.inclusion_exclusion_decision == "Excluded").length

/-- The opening triple-quoted f-string of `get_results_summary`, four fixed
chunks around the three interpolated statistics. -/
def summaryBase (st : RMState) : List Char :=
  "\n## Processing Summary\n- **Total files processed:** ".toList ++
  natDigits (get_stats st).total_processed ++
  "\n- **Successfully analyzed:** ".toList ++ natDigits (get_stats st).successful ++
  "\n- **Failed to analyze:** ".toList ++ natDigits (get_stats st).failed ++
  "\n        ".toList

/-- Python dict update `categories[cat] = categories.get(cat, 0) + 1` on an
insertion-ordered association list: an existing key is bumped in place, a
new key is appended. -/
def bumpCat : List (String × Nat) → String → List (String × Nat)
  | [], k => [(k, 1)]
  | (k2, n) :: rest, k =>
    if k2 == k then (k2, n + 1) :: rest else (k2, n) :: bumpCat rest k

/-- The `categories` dict built over the included results. -/
def buildCategories (rows : List ResultRow) : List (String × Nat) :=
  rows.foldl
    (fun m r => if r.inclusion_exclusion_decision == "Included" then bumpCat m r.category else m)
    []

def renderCats : List (String × Nat) → List Char
  | [] => []
  | (k, n) :: rest =>
    "- **".toList ++ k.toList ++ ":** ".toList ++ natDigits n ++ "\n".toList ++ renderCats rest

/-- The analysis-results section appended when at least one result exists. -/
def sectionA (st : RMState) : List Char :=
  "\n### Analysis Results\n".toList ++
  ("- **Included papers:** ".toList ++ natDigits (countIncluded st.results) ++ "\n".toList) ++
  ("- **Excluded papers:** ".toList ++ natDigits (countExcluded st.results) ++ "\n".toList)

/-- The category-breakdown section appended when at least one inclusion
exists. -/
def sectionB (st : RMState) : List Char :=
  "\n### Categories (Included Papers)\n".toList ++ renderCats (buildCategories st.results)

/-- `ResultsManager.get_results_summary`. -/
def get_results_summary (st : RMState) : List Char :=
  summaryBase st ++
  (if st.results = [] then []
   else sectionA st ++ (if 0 < countIncluded st.results then sectionB st else []))

/-- First-seen-order deduplication, the specification-side description of
Python dict key order. -/
def firstSeen (l : List String) : List String :=
  l.foldl (fun acc c => if c ∈ acc then acc else acc ++ [c]) []

/-- The categories of the included rows, in result order. -/
def includedCats (rows : List ResultRow) : List String :=
  (rows.filter fun r => r.inclusion_exclusion_decision == "Included").map fun r => r.category

def lookupCat : List (String × Nat) → String → Nat
  | [], _ => 0
  | (k2, n) :: rest, k => if k2 == k then n else lookupCat rest k

theorem buildCategories_eq (rows : List ResultRow) :
    buildCategories rows = (includedCats rows).foldl bumpCat [] := by
  have hgen : ∀ (rs : List ResultRow) (m : List (String × Nat)),
      rs.foldl (fun m r =>
        if r.inclusion_exclusion_decision == "Included" then bumpCat m r.category else m) m =
      ((rs.filter fun r => r.inclusion_exclusion_decision == "Included").map
        fun r => r.category).foldl bumpCat m := by
    intro rs
    induction rs with
    | nil => intro m; rfl
    | cons r rest ih =>
      intro m
      by_cases hr : r.inclusion_exclusion_decision == "Included"
      · simp only [List.foldl_cons, hr, if_pos, List.filter_cons_of_pos, List.map_cons]
        exact ih (bumpCat m r.category)
      · rw [List.foldl_cons, if_neg (by simpa using hr), List.filter_cons_of_neg (by simpa using hr)]
        exact ih m
  exact hgen rows []

theorem bumpCat_keys (m : List (String × Nat)) (k : String) :
    (bumpCat m k).map Prod.fst =
      if k ∈ m.map Prod.fst then m.map Prod.fst else m.map Prod.fst ++ [k] := by
  induction m with
  | nil => simp [bumpCat]
  | cons p rest ih =>
    rcases p with ⟨k2, n⟩
    by_cases hk : k2 = k
    · subst hk
      simp [bumpCat]
    · have hbeq : (k2 == k) = false := by simpa using hk
      by_cases hmem : k ∈ rest.map Prod.fst <;>
        simp [bumpCat, hbeq, ih, hmem, hk, Ne.symm hk]

theorem lookupCat_bumpCat_same (m : List (String × Nat)) (k : String) :
    lookupCat (bumpCat m k) k = lookupCat m k + 1 := by
  induction m with
  | nil => simp [bumpCat, lookupCat]
  | cons p rest ih =>
    rcases p with ⟨k2, n⟩
    by_cases hk : k2 = k
    · subst hk
      simp [bumpCat, lookupCat]
    · have hbeq : (k2 == k) = false := by simpa using hk
      simp [bumpCat, lookupCat, hbeq, ih]

theorem lookupCat_bumpCat_ne (m : List (String × Nat)) (a b : String) (h : a ≠ b) :
    lookupCat (bumpCat m b) a = lookupCat m a := by
  have hba : (b == a) = false := by
    simp only [beq_eq_false_iff_ne, ne_eq]
    intro hh
    exact h hh.symm
  induction m with
  | nil => simp [bumpCat, lookupCat, hba]
  | cons p rest ih =>
    rcases p with ⟨k2, n⟩
    by_cases hk : k2 = b
    · subst hk
      simp [bumpCat, lookupCat, hba]
    · have hbeq : (k2 == b) = false := by simpa using hk
      simp [bumpCat, lookupCat, hbeq, ih]

theorem lookupCat_foldl (ks : List String) : ∀ (m : List (String × Nat)) (k : String),
    lookupCat (ks.foldl bumpCat m) k = lookupCat m k + ks.count k := by
  induction ks with
  | nil => intro m k; simp
  | cons c ks ih =>
    intro m k
    rw [List.foldl_cons, ih (bumpCat m c) k]
    by_cases hc : c = k
    · subst hc
      rw [lookupCat_bumpCat_same, List.count_cons_self]
      omega
    · rw [lookupCat_bumpCat_ne m k c (fun hh => hc hh.symm),
          List.count_cons_of_ne (fun hh => hc hh.symm)]

theorem bumpCat_keys_nodup (m : List (String × Nat)) (k : String)
    (h : (m.map Prod.fst).Nodup) : ((bumpCat m k).map Prod.fst).Nodup := by
  rw [bumpCat_keys]
  by_cases hmem : k ∈ m.map Prod.fst
  · simpa [hmem] using h
  · rw [if_neg hmem]
    rw [List.nodup_append]
    refine ⟨h, List.nodup_singleton k, ?_⟩
    intro a ha hb
    rw [List.mem_singleton] at hb
    subst hb
    exact hmem ha

theorem mem_lookupCat (m : List (String × Nat)) (h : (m.map Prod.fst).Nodup) :
    ∀ p ∈ m, lookupCat m p.1 = p.2 := by
  induction m with
  | nil => intro p hp; simp at hp
  | cons q rest ih =>
    rcases q with ⟨k2, n⟩
    intro p hp
    rw [List.map_cons, List.nodup_cons] at h
    rcases List.mem_cons.mp hp with h1 | h1
    · subst h1
      simp [lookupCat]
    · have hp1 : p.1 ∈ rest.map Prod.fst := List.mem_map_of_mem Prod.fst h1
      have hne : (k2 == p.1) = false := by
        simp only [beq_eq_false_iff_ne, ne_eq]
        intro he
        exact absurd hp1 (he ▸ h.1)
      simp only [lookupCat, hne, Bool.false_eq_true, if_false]
      exact ih h.2 p h1

theorem foldl_bumpCat_keys (ks : List String) : ∀ m : List (String × Nat),
    (ks.foldl bumpCat m).map Prod.fst =
      ks.foldl (fun acc c => if c ∈ acc then acc else acc ++ [c]) (m.map Prod.fst) := by
  induction ks with
  | nil => intro m; rfl
  | cons c ks ih =>
    intro m
    rw [List.foldl_cons, List.foldl_cons, ih (bumpCat m c), bumpCat_keys]

theorem foldl_bumpCat_nodup (ks : List String) : ∀ m : List (String × Nat),
    (m.map Prod.fst).Nodup → ((ks.foldl bumpCat m).map Prod.fst).Nodup := by
  induction ks with
  | nil => intro m h; exact h
  | cons c ks ih =>
    intro m h
    rw [List.foldl_cons]
    exact ih (bumpCat m c) (bumpCat_keys_nodup m c h)

/-- The code's category dictionary lists keys in first-seen order over the
included results. -/
theorem buildCategories_keys (rows : List ResultRow) :
    (buildCategories rows).map Prod.fst = firstSeen (includedCats rows) := by
  rw [buildCategories_eq, firstSeen]
  exact foldl_bumpCat_keys (includedCats rows) []

/-- Every entry of the code's category dictionary carries the number of
included results with that category. -/
theorem buildCategories_counts (rows : List ResultRow) :
    ∀ p ∈ buildCategories rows, p.2 = (includedCats rows).count p.1 := by
  intro p hp
  rw [buildCategories_eq] at hp
  have hnd : (((includedCats rows).foldl bumpCat []).map Prod.fst).Nodup :=
    foldl_bumpCat_nodup _ [] (by simp)
  have h1 := mem_lookupCat _ hnd p hp
  rw [lookupCat_foldl (includedCats rows) [] p.1] at h1
  simpa [lookupCat] using h1.symm

theorem infix_decomp {x l : List Char} (pre post : List Char) (h : pre ++ x ++ post = l) :
    x <:+: l := ⟨pre, post, h⟩

theorem summaryBase_no_A (st : RMState) : 'A' ∉ summaryBase st := by
  intro h
  unfold summaryBase at h
  simp only [List.mem_append, or_assoc] at h
  rcases h with h | h | h | h | h | h | h
  · exact absurd h (by decide)
  · exact absurd (mem_natDigits_range _ _ h) (by decide)
  · exact absurd h (by decide)
  · exact absurd (mem_natDigits_range _ _ h) (by decide)
  · exact absurd h (by decide)
  · exact absurd (mem_natDigits_range _ _ h) (by decide)
  · exact absurd h (by decide)

theorem summaryBase_no_C (st : RMState) : 'C' ∉ summaryBase st := by
  intro h
  unfold summaryBase at h
  simp only [List.mem_append, or_assoc] at h
  rcases h with h | h | h | h | h | h | h
  · exact absurd h (by decide)
  · exact absurd (mem_natDigits_range _ _ h) (by decide)
  · exact absurd h (by decide)
  · exact absurd (mem_natDigits_range _ _ h) (by decide)
  · exact absurd h (by decide)
  · exact absurd (mem_natDigits_range _ _ h) (by decide)
  · exact absurd h (by decide)

theorem sectionA_no_C (st : RMState) : 'C' ∉ sectionA st := by
  intro h
  unfold sectionA at h
  simp only [List.mem_append, or_assoc] at h
  rcases h with h | h | h | h | h | h | h
  · exact absurd h (by decide)
  · exact absurd h (by decide)
  · exact absurd (mem_natDigits_range _ _ h) (by decide)
  · exact absurd h (by decide)
  · exact absurd h (by decide)
  · exact absurd (mem_natDigits_range _ _ h) (by decide)
  · exact absurd h (by decide)

/-- Claim C8. The summary reports the total, success and failure counts; it
contains the included-versus-excluded section exactly when at least one
successful result exists; it contains the per-category breakdown exactly
when at least one result is Included; and the breakdown lists categories in
first-seen order over the included results, with their occurrence counts. -/
theorem claim_C8 : ∀ st : RMState,
    (("- **Total files processed:** ".toList ++ natDigits (get_stats st).total_processed)
        <:+: get_results_summary st) ∧
    (("- **Successfully analyzed:** ".toList ++ natDigits (get_stats st).successful)
        <:+: get_results_summary st) ∧
    (("- **Failed to analyze:** ".toList ++ natDigits (get_stats st).failed)
        <:+: get_results_summary st) ∧
    ("### Analysis Results".toList <:+: get_results_summary st ↔ st.results ≠ []) ∧
    ("### Categories (Included Papers)".toList <:+: get_results_summary st ↔
        0 < countIncluded st.results) ∧
    (buildCategories st.results).map Prod.fst = firstSeen (includedCats st.results) ∧
    (∀ p ∈ buildCategories st.results, p.2 = (includedCats st.results).count p.1) := by
  intro st
  refine ⟨?_, ?_, ?_, ?_, ?_, buildCategories_keys st.results, buildCategories_counts st.results⟩
  · refine infix_decomp "\n## Processing Summary\n".toList
      ("\n- **Successfully analyzed:** ".toList ++ natDigits (get_stats st).successful ++
       "\n- **Failed to analyze:** ".toList ++ natDigits (get_stats st).failed ++
       "\n        ".toList ++
       (if st.results = [] then []
        else sectionA st ++ (if 0 < countIncluded st.results then sectionB st else []))) ?_
    unfold get_results_summary summaryBase
    rw [show ("\n## Processing Summary\n- **Total files processed:** ".toList : List Char) =
      "\n## Processing Summary\n".toList ++ "- **Total files processed:** ".toList from by decide]
    simp [List.append_assoc]
  · refine infix_decomp
      ("\n## Processing Summary\n- **Total files processed:** ".toList ++
        natDigits (get_stats st).total_processed ++ "\n".toList)
      ("\n- **Failed to analyze:** ".toList ++ natDigits (get_stats st).failed ++
       "\n        ".toList ++
       (if st.results = [] then []
        else sectionA st ++ (if 0 < countIncluded st.results then sectionB st else []))) ?_
    unfold get_results_summary summaryBase
    rw [show ("\n- **Successfully analyzed:** ".toList : List Char) =
      "\n".toList ++ "- **Successfully analyzed:** ".toList from by decide]
    simp [List.append_assoc]
  · refine infix_decomp
      ("\n## Processing Summary\n- **Total files processed:** ".toList ++
        natDigits (get_stats st).total_processed ++
        "\n- **Successfully analyzed:** ".toList ++ natDigits (get_stats st).successful ++
        "\n".toList)
      ("\n        ".toList ++
       (if st.results = [] then []
        else sectionA st ++ (if 0 < countIncluded st.results then sectionB st else []))) ?_
    unfold get_results_summary summaryBase
    rw [show ("\n- **Failed to analyze:** ".toList : List Char) =
      "\n".toList ++ "- **Failed to analyze:** ".toList from by decide]
    simp [List.append_assoc]
  · constructor
    · intro hinf hres
      have hs : get_results_summary st = summaryBase st := by
        unfold get_results_summary
        rw [if_pos hres, List.append_nil]
      rw [hs] at hinf
      exact summaryBase_no_A st (hinf.sublist.subset (by decide))
    · intro hres
      refine infix_decomp (summaryBase st ++ "\n".toList)
        ("\n".toList ++
          (("- **Included papers:** ".toList ++ natDigits (countIncluded st.results) ++
            "\n".toList) ++
           ("- **Excluded papers:** ".toList ++ natDigits (countExcluded st.results) ++
            "\n".toList)) ++
         (if 0 < countIncluded st.results then sectionB st else [])) ?_
      unfold get_results_summary sectionA
      rw [if_neg hres]
      rw [show ("\n### Analysis Results\n".toList : List Char) =
        "\n".toList ++ "### Analysis Results".toList ++ "\n".toList from by decide]
      simp [List.append_assoc]
  · constructor
    · intro hinf
      by_contra hni
      have hc : 'C' ∈ get_results_summary st := hinf.sublist.subset (by decide)
      unfold get_results_summary at hc
      by_cases hres : st.results = []
      · rw [if_pos hres, List.append_nil] at hc
        exact summaryBase_no_C st hc
      · rw [if_neg hres, if_neg hni, List.append_nil] at hc
        rcases List.mem_append.mp hc with h | h
        · exact summaryBase_no_C st h
        · exact sectionA_no_C st h
    · intro hinc
      have hres : st.results ≠ [] := by
        intro he
        rw [countIncluded, he] at hinc
        simp at hinc
      refine infix_decomp (summaryBase st ++ sectionA st ++ "\n".toList)
        ("\n".toList ++ renderCats (buildCategories st.results)) ?_
      unfold get_results_summary sectionB
      rw [if_neg hres, if_pos hinc]
      rw [show ("\n### Categories (Included Papers)\n".toList : List Char) =
        "\n".toList ++ "### Categories (Included Papers)".toList ++ "\n".toList from by decide]
      simp [List.append_assoc]

/-! ## results_manager.ResultsManager._sanitize_model_name (claim C7) -/

/-- Scanner for `re.sub` of a literal pattern followed by a greedy dot-star,
replaced by the literal itself, for a literal containing no newline.  At
each position of the left-to-right scan, a match of the literal emits it
and skips to the end of the line (the dot does not match a newline and
nothing follows the greedy star, so the match eats exactly the rest of the
line); otherwise one character is copied.  The `Bool` is true while
skipping to the end of the line. -/
def subToEolGo (pat : List Char) : Bool → List Char → List Char
  | _, [] => []
  | true, c :: rest =>
    if c = '\n' then c :: subToEolGo pat false rest else subToEolGo pat true rest
  | false, c :: rest =>
    if pat.isPrefixOf (c :: rest) then pat ++ subToEolGo pat true rest
    else c :: subToEolGo pat false rest

def subToEol (pat l : List Char) : List Char := subToEolGo pat false l

/-- The pattern literal of `re.sub(r'claude-opus-4.*', 'claude-opus-4', s)`. -/
def claudePat : List Char := "claude-opus-4".toList

/-- The pattern literal of `re.sub(r'o3.*', 'o3', s)`. -/
def o3Pat : List Char := "o3".toList

/-- The character class kept by `re.sub(r'[^a-z0-9\-_]', '-', s)`. -/
def isTagAllowed (c : Char) : Bool :=
  (97 ≤ c.toNat && c.toNat ≤ 122) || (48 ≤ c.toNat && c.toNat ≤ 57) || c == '-' || c == '_'

/-- The pipeline of `ResultsManager._sanitize_model_name` before the final
fallback: lower-case, collapse the two provider-version patterns to their
canonical short forms (claude first, then o3, each up to the end of the
line), replace every character outside the allowed class by a dash,
collapse dash runs, strip leading and trailing dashes. -/
def sanitizeCore (l : List Char) : List Char :=
  stripEnds (fun c => c == '-')
    (collapseRuns (fun c => c == '-') '-'
      ((subToEol o3Pat (subToEol claudePat (l.map asciiLowerChar))).map
        fun c => if isTagAllowed c then c else '-'))

/-- `ResultsManager._sanitize_model_name`: the pipeline, with "unknown" as
fallback when nothing remains. -/
def sanitize_model_name (l : List Char) : List Char :=
  if sanitizeCore l = [] then "unknown".toList else sanitizeCore l

theorem asciiLowerChar_ne_newline (c : Char) (h : c ≠ '\n') : asciiLowerChar c ≠ '\n' := by
  unfold asciiLowerChar
  split
  · rename_i hAZ
    intro he
    have h1 := congrArg Char.toNat he
    have h2 : (Char.ofNat (c.toNat + 32)).toNat = c.toNat + 32 := by
      unfold Char.ofNat
      rw [dif_pos (Or.inl (by omega : c.toNat + 32 < 55296))]
      rfl
    rw [h2, show ('\n').toNat = 10 from by decide] at h1
    omega
  · exact h

theorem map_asciiLower_no_newline (t : List Char) (h : '\n' ∉ t) :
    '\n' ∉ t.map asciiLowerChar := by
  intro hmem
  rcases List.mem_map.mp hmem with ⟨c, hc, he⟩
  exact asciiLowerChar_ne_newline c (fun heq => h (heq ▸ hc)) he

theorem isPrefixOf_cons_ne (a b : Char) (as bs : List Char) (h : (a == b) = false) :
    (a :: as).isPrefixOf (b :: bs) = false := by
  simp [List.isPrefixOf, h]

theorem subToEolGo_skip_nil (pat : List Char) :
    ∀ l : List Char, '\n' ∉ l → subToEolGo pat true l = [] := by
  intro l
  induction l with
  | nil => intro _; rfl
  | cons c rest ih =>
    intro h
    have hc : c ≠ '\n' := fun he => h (he ▸ List.mem_cons_self _ _)
    have hrest : '\n' ∉ rest := fun he => h (List.mem_cons_of_mem _ he)
    simp only [subToEolGo, if_neg hc]
    exact ih hrest

theorem subToEolGo_no_newline (pat : List Char) (hpn : '\n' ∉ pat) :
    ∀ (l : List Char) (b : Bool), '\n' ∉ l → '\n' ∉ subToEolGo pat b l := by
  intro l
  induction l with
  | nil => intro b h hmem; cases b <;> simp [subToEolGo] at hmem
  | cons c rest ih =>
    intro b hl
    have hc : c ≠ '\n' := fun he => hl (he ▸ List.mem_cons_self _ _)
    have hrest : '\n' ∉ rest := fun he => hl (List.mem_cons_of_mem _ he)
    cases b with
    | true =>
      simp only [subToEolGo, if_neg hc]
      exact ih true hrest
    | false =>
      by_cases hm : pat.isPrefixOf (c :: rest) = true
      · simp only [subToEolGo, if_pos hm]
        intro hmem
        rcases List.mem_append.mp hmem with h1 | h1
        · exact hpn h1
        · exact ih true hrest h1
      · simp only [subToEolGo, if_neg hm]
        intro hmem
        rcases List.mem_cons.mp hmem with h1 | h1
        · exact hc h1.symm
        · exact ih false hrest h1

theorem mem_subToEolGo (pat : List Char) :
    ∀ (l : List Char) (b : Bool) (c : Char), c ∈ subToEolGo pat b l → c ∈ pat ∨ c ∈ l := by
  intro l
  induction l with
  | nil => intro b c h; cases b <;> simp [subToEolGo] at h
  | cons d rest ih =>
    intro b c h
    cases b with
    | true =>
      by_cases hd : d = '\n'
      · simp only [subToEolGo, if_pos hd] at h
        rcases List.mem_cons.mp h with h1 | h1
        · exact Or.inr (h1 ▸ List.mem_cons_self _ _)
        · rcases ih false c h1 with h2 | h2
          · exact Or.inl h2
          · exact Or.inr (List.mem_cons_of_mem _ h2)
      · simp only [subToEolGo, if_neg hd] at h
        rcases ih true c h with h2 | h2
        · exact Or.inl h2
        · exact Or.inr (List.mem_cons_of_mem _ h2)
    | false =>
      by_cases hm : pat.isPrefixOf (d :: rest) = true
      · simp only [subToEolGo, if_pos hm] at h
        rcases List.mem_append.mp h with h1 | h1
        · exact Or.inl h1
        · rcases ih true c h1 with h2 | h2
          · exact Or.inl h2
          · exact Or.inr (List.mem_cons_of_mem _ h2)
      · simp only [subToEolGo, if_neg hm] at h
        rcases List.mem_cons.mp h with h1 | h1
        · exact Or.inr (h1 ▸ List.mem_cons_self _ _)
        · rcases ih false c h1 with h2 | h2
          · exact Or.inl h2
          · exact Or.inr (List.mem_cons_of_mem _ h2)

theorem stripEnds_infix_self (p : Char → Bool) (l : List Char) : stripEnds p l <:+: l := by
  unfold stripEnds
  rcases List.dropWhile_suffix p (l := l) with ⟨v, hv⟩
  rcases List.dropWhile_suffix p (l := (l.dropWhile p).reverse) with ⟨u, hu⟩
  refine ⟨v, u.reverse, ?_⟩
  have h1 := congrArg List.reverse hu
  rw [List.reverse_append, List.reverse_reverse] at h1
  rw [List.append_assoc, h1, hv]

theorem collapseRunsGo_no_pair (p : Char → Bool) (rep : Char) (hrep : p rep = true) :
    ∀ l : List Char,
      (∀ b : Bool, ¬ ([rep, rep] <:+: collapseRunsGo p rep b l)) ∧
      (((collapseRunsGo p rep true l).head?.all fun c => !p c) = true) := by
  intro l
  induction l with
  | nil =>
    refine ⟨fun b h => ?_, rfl⟩
    have : ([rep, rep] : List Char) = [] := by
      cases b <;> simpa [collapseRunsGo] using List.eq_nil_of_infix_nil h
    simp at this
  | cons c rest ih =>
    have hhead : ((collapseRunsGo p rep true (c :: rest)).head?.all fun c => !p c) = true := by
      by_cases hp : p c
      · simp only [collapseRunsGo, if_pos hp]
        exact ih.2
      · simp only [collapseRunsGo, if_neg hp]
        simp [Bool.eq_false_iff.mpr hp]
    refine ⟨?_, hhead⟩
    intro b h
    cases b with
    | true =>
      by_cases hp : p c
      · rw [show collapseRunsGo p rep true (c :: rest) = collapseRunsGo p rep true rest from by
          simp [collapseRunsGo, hp]] at h
        exact ih.1 true h
      · rw [show collapseRunsGo p rep true (c :: rest) =
            c :: collapseRunsGo p rep false rest from by simp [collapseRunsGo, hp]] at h
        rcases List.infix_cons_iff.mp h with h1 | h1
        · rcases (List.cons_prefix_cons.mp h1) with ⟨he, _⟩
          exact hp (he ▸ hrep)
        · exact ih.1 false h1
    | false =>
      by_cases hp : p c
      · rw [show collapseRunsGo p rep false (c :: rest) =
            rep :: collapseRunsGo p rep true rest from by simp [collapseRunsGo, hp]] at h
        rcases List.infix_cons_iff.mp h with h1 | h1
        · rcases (List.cons_prefix_cons.mp h1) with ⟨_, h2⟩
          rcases h2 with ⟨u, hu⟩
          have hh : (collapseRunsGo p rep true rest).head? = some rep := by
            rw [← hu]
            rfl
          have h3 := ih.2
          rw [hh] at h3
          simp at h3
          rw [h3] at hrep
          exact absurd hrep (by decide)
        · exact ih.1 true h1
      · rw [show collapseRunsGo p rep false (c :: rest) =
            c :: collapseRunsGo p rep false rest from by simp [collapseRunsGo, hp]] at h
        rcases List.infix_cons_iff.mp h with h1 | h1
        · rcases (List.cons_prefix_cons.mp h1) with ⟨he, _⟩
          exact hp (he ▸ hrep)
        · exact ih.1 false h1

/-- Appending a newline-free tail after an occurrence of the pattern does
not change the substitution's output: the scan matches at or before the
seam occurrence on its line (the pattern cannot overlap itself, having no
proper border) and then eats the rest of the line, tail included. -/
theorem subToEol_seam_aux (pat : List Char) (hne : pat ≠ [])
    (hnb : ∀ k, k < pat.length → 0 < k → pat.drop (pat.length - k) ≠ pat.take k)
    (hpn : '\n' ∉ pat) :
    ∀ (n : Nat) (s t : List Char), s.length = n → '\n' ∉ t →
      subToEolGo pat false (s ++ pat ++ t) = subToEolGo pat false (s ++ pat) ∧
      subToEolGo pat true (s ++ pat ++ t) = subToEolGo pat true (s ++ pat) := by
  intro n
  induction n using Nat.strong_induction_on with
  | _ n ih =>
    intro s t hlen hnt
    have hnpt : '\n' ∉ pat ++ t := by
      intro hmem
      rcases List.mem_append.mp hmem with h1 | h1
      · exact hpn h1
      · exact hnt h1
    constructor
    · cases s with
      | nil =>
        simp only [List.nil_append]
        obtain ⟨p, pr, hppr⟩ : ∃ p pr, pat = p :: pr := by
          cases pat with
          | nil => exact absurd rfl hne
          | cons p pr => exact ⟨p, pr, rfl⟩
        have hnpr : '\n' ∉ pr := fun hmem => hpn (hppr ▸ List.mem_cons_of_mem _ hmem)
        have hpfx1 : pat.isPrefixOf (p :: (pr ++ t)) = true := by
          rw [List.isPrefixOf_iff_prefix]
          rw [show p :: (pr ++ t) = pat ++ t from by rw [hppr]; simp]
          exact List.prefix_append _ _
        have hpfx2 : pat.isPrefixOf (p :: pr) = true := by
          rw [List.isPrefixOf_iff_prefix, ← hppr]
        have h1 : pat ++ t = p :: (pr ++ t) := by rw [hppr]; simp
        rw [h1, hppr]
        simp only [subToEolGo, if_pos (hppr ▸ hpfx1), if_pos (hppr ▸ hpfx2)]
        rw [subToEolGo_skip_nil _ _ (fun hmem => hnpt (hppr ▸ (List.mem_append.mpr
              (by rcases List.mem_append.mp hmem with h2 | h2
                  exacts [Or.inl (hppr ▸ List.mem_cons_of_mem _ h2), Or.inr h2])))),
            subToEolGo_skip_nil _ _ (fun hmem => hnpr hmem)]
      | cons c s' =>
        have hlt : s'.length < n := by
          rw [← hlen]
          simp
        by_cases hm : pat.isPrefixOf ((c :: s') ++ pat ++ t) = true
        · have hsle : pat.length ≤ (c :: s').length := by
            by_contra hgt
            push_neg at hgt
            have hk0 : 0 < pat.length - (c :: s').length := by omega
            have hklt : pat.length - (c :: s').length < pat.length := by
              simp only [List.length_cons] at hgt ⊢
              omega
            have htake := List.prefix_iff_eq_take.mp (List.isPrefixOf_iff_prefix.mp hm)
            rw [List.append_assoc, List.take_append_eq_append_take,
                List.take_of_length_le (by omega),
                List.take_append_of_le_length (by omega)] at htake
            have hdrop : pat.drop (c :: s').length = pat.take (pat.length - (c :: s').length) := by
              conv_lhs => rw [htake]
              rw [List.drop_left]
            refine hnb (pat.length - (c :: s').length) hklt hk0 ?_
            rw [show pat.length - (pat.length - (c :: s').length) = (c :: s').length from by omega]
            exact hdrop
          have hpfxs : pat.isPrefixOf (c :: s') = true := by
            rw [List.isPrefixOf_iff_prefix, List.prefix_iff_eq_take]
            have htake := List.prefix_iff_eq_take.mp (List.isPrefixOf_iff_prefix.mp hm)
            rw [List.append_assoc, List.take_append_of_le_length hsle] at htake
            exact htake
          have hmr : pat.isPrefixOf ((c :: s') ++ pat) = true := by
            rw [List.isPrefixOf_iff_prefix]
            exact (List.isPrefixOf_iff_prefix.mp hpfxs).trans (List.prefix_append _ _)
          have he1 : (c :: s') ++ pat ++ t = c :: (s' ++ pat ++ t) := by simp
          have he2 : (c :: s') ++ pat = c :: (s' ++ pat) := by simp
          rw [he1, he2]
          simp only [subToEolGo, if_pos (he1 ▸ hm), if_pos (he2 ▸ hmr)]
          rw [(ih s'.length hlt s' t rfl hnt).2]
        · have hmr : ¬ pat.isPrefixOf ((c :: s') ++ pat) = true := by
            intro hx
            refine hm (List.isPrefixOf_iff_prefix.mpr ?_)
            exact (List.isPrefixOf_iff_prefix.mp hx).trans (List.prefix_append _ _)
          have he1 : (c :: s') ++ pat ++ t = c :: (s' ++ pat ++ t) := by simp
          have he2 : (c :: s') ++ pat = c :: (s' ++ pat) := by simp
          rw [he1, he2]
          simp only [subToEolGo, if_neg (he1 ▸ hm), if_neg (he2 ▸ hmr)]
          rw [(ih s'.length hlt s' t rfl hnt).1]
    · cases s with
      | nil =>
        simp only [List.nil_append]
        rw [subToEolGo_skip_nil _ _ hnpt, subToEolGo_skip_nil _ _ hpn]
      | cons c s' =>
        have hlt : s'.length < n := by
          rw [← hlen]
          simp
        have he1 : (c :: s') ++ pat ++ t = c :: (s' ++ pat ++ t) := by simp
        have he2 : (c :: s') ++ pat = c :: (s' ++ pat) := by simp
        rw [he1, he2]
        by_cases hc : c = '\n'
        · simp only [subToEolGo, if_pos hc]
          rw [(ih s'.length hlt s' t rfl hnt).1]
        · simp only [subToEolGo, if_neg hc]
          exact (ih s'.length hlt s' t rfl hnt).2

theorem subToEol_seam (pat : List Char) (hne : pat ≠ [])
    (hnb : ∀ k, k < pat.length → 0 < k → pat.drop (pat.length - k) ≠ pat.take k)
    (hpn : '\n' ∉ pat) (s t : List Char) (hnt : '\n' ∉ t) :
    subToEol pat (s ++ pat ++ t) = subToEol pat (s ++ pat) :=
  (subToEol_seam_aux pat hne hnb hpn s.length s t rfl hnt).1

theorem claude_not_pfx_o (l : List Char) : claudePat.isPrefixOf ('o' :: l) = false := by
  rw [show claudePat = 'c' :: "laude-opus-4".toList from by decide]
  exact isPrefixOf_cons_ne _ _ _ _ (by decide)

theorem claude_not_pfx_3 (l : List Char) : claudePat.isPrefixOf ('3' :: l) = false := by
  rw [show claudePat = 'c' :: "laude-opus-4".toList from by decide]
  exact isPrefixOf_cons_ne _ _ _ _ (by decide)

/-- How the claude substitution treats a string with an "o3" seam followed
by a newline-free tail: no claude occurrence can touch the seam (the
pattern contains no '3', and its only 'o' is followed by 'p'), so either a
claude match before the seam eats the seam and tail to the end of the line,
making both outputs equal, or the outputs agree up to the seam, with the
tail's processed remainder after it. -/
theorem subClaude_split_aux :
    ∀ (n : Nat) (s t : List Char), s.length = n → '\n' ∉ t →
      ((∃ w z, subToEolGo claudePat false (s ++ 'o' :: '3' :: t) = w ++ 'o' :: '3' :: z ∧
               subToEolGo claudePat false (s ++ ['o', '3']) = w ++ ['o', '3'] ∧ '\n' ∉ z) ∨
       subToEolGo claudePat false (s ++ 'o' :: '3' :: t) =
         subToEolGo claudePat false (s ++ ['o', '3'])) ∧
      ((∃ w z, subToEolGo claudePat true (s ++ 'o' :: '3' :: t) = w ++ 'o' :: '3' :: z ∧
               subToEolGo claudePat true (s ++ ['o', '3']) = w ++ ['o', '3'] ∧ '\n' ∉ z) ∨
       subToEolGo claudePat true (s ++ 'o' :: '3' :: t) =
         subToEolGo claudePat true (s ++ ['o', '3'])) := by
  intro n
  induction n using Nat.strong_induction_on with
  | _ n ih =>
    intro s t hlen hnt
    constructor
    · cases s with
      | nil =>
        simp only [List.nil_append]
        left
        refine ⟨[], subToEolGo claudePat false t, ?_, by decide,
          subToEolGo_no_newline claudePat (by decide) t false hnt⟩
        simp only [subToEolGo, claude_not_pfx_o, claude_not_pfx_3, Bool.false_eq_true,
          if_false, List.nil_append]
      | cons c s' =>
        have hlt : s'.length < n := by
          rw [← hlen]
          simp
        by_cases hm : claudePat.isPrefixOf ((c :: s') ++ 'o' :: '3' :: t) = true
        · have h13 : (13 : Nat) ≤ (c :: s').length := by
            by_contra hlt13
            push_neg at hlt13
            have htake : claudePat = ((c :: s') ++ 'o' :: '3' :: t).take 13 := by
              have h := List.prefix_iff_eq_take.mp (List.isPrefixOf_iff_prefix.mp hm)
              rw [show claudePat.length = 13 from by decide] at h
              exact h
            have hoelem : claudePat[(c :: s').length]? = some 'o' := by
              rw [htake, List.getElem?_take, if_pos hlt13,
                  List.getElem?_append_right (le_refl _)]
              simp
            have h7 : (c :: s').length = 7 := by
              have hdec : ∀ i : Nat, i < 13 → claudePat[i]? = some 'o' → i = 7 := by decide
              exact hdec _ hlt13 hoelem
            have h3elem : claudePat[8]? = some '3' := by
              rw [htake, List.getElem?_take, if_pos (by omega : (8 : Nat) < 13),
                  List.getElem?_append_right (by omega : (c :: s').length ≤ 8), h7]
              simp
            exact absurd h3elem (by decide)
          have hpfxs : claudePat.isPrefixOf (c :: s') = true := by
            rw [List.isPrefixOf_iff_prefix, List.prefix_iff_eq_take]
            have htake := List.prefix_iff_eq_take.mp (List.isPrefixOf_iff_prefix.mp hm)
            rw [List.take_append_of_le_length
                  (by rw [show claudePat.length = 13 from by decide]; exact h13)] at htake
            exact htake
          have hmr : claudePat.isPrefixOf ((c :: s') ++ ['o', '3']) = true := by
            rw [List.isPrefixOf_iff_prefix]
            exact (List.isPrefixOf_iff_prefix.mp hpfxs).trans (List.prefix_append _ _)
          have he1 : (c :: s') ++ 'o' :: '3' :: t = c :: (s' ++ 'o' :: '3' :: t) := by simp
          have he2 : (c :: s') ++ ['o', '3'] = c :: (s' ++ ['o', '3']) := by simp
          rw [he1, he2]
          simp only [subToEolGo, if_pos (he1 ▸ hm), if_pos (he2 ▸ hmr)]
          rcases (ih s'.length hlt s' t rfl hnt).2 with ⟨w, z, hw1, hw2, hz⟩ | heq
          · left
            refine ⟨claudePat ++ w, z, ?_, ?_, hz⟩
            · rw [hw1, List.append_assoc]
            · rw [hw2, List.append_assoc]
          · right
            rw [heq]
        · have hmr : ¬ claudePat.isPrefixOf ((c :: s') ++ ['o', '3']) = true := by
            intro hx
            refine hm (List.isPrefixOf_iff_prefix.mpr ?_)
            have h1 := (List.isPrefixOf_iff_prefix.mp hx).trans
              (List.prefix_append ((c :: s') ++ ['o', '3']) t)
            rw [show (c :: s') ++ ['o', '3'] ++ t = (c :: s') ++ 'o' :: '3' :: t from by
              simp] at h1
            exact h1
          have he1 : (c :: s') ++ 'o' :: '3' :: t = c :: (s' ++ 'o' :: '3' :: t) := by simp
          have he2 : (c :: s') ++ ['o', '3'] = c :: (s' ++ ['o', '3']) := by simp
          rw [he1, he2]
          simp only [subToEolGo, if_neg (he1 ▸ hm), if_neg (he2 ▸ hmr)]
          rcases (ih s'.length hlt s' t rfl hnt).1 with ⟨w, z, hw1, hw2, hz⟩ | heq
          · left
            exact ⟨c :: w, z, by rw [hw1]; rfl, by rw [hw2]; rfl, hz⟩
          · right
            rw [heq]
    · cases s with
      | nil =>
        simp only [List.nil_append]
        right
        rw [subToEolGo_skip_nil _ _ (by
              intro hmem
              rcases List.mem_cons.mp hmem with h1 | h1
              · exact absurd h1.symm (by decide)
              · rcases List.mem_cons.mp h1 with h2 | h2
                · exact absurd h2.symm (by decide)
                · exact hnt h2),
            subToEolGo_skip_nil _ _ (by decide)]
      | cons c s' =>
        have hlt : s'.length < n := by
          rw [← hlen]
          simp
        have he1 : (c :: s') ++ 'o' :: '3' :: t = c :: (s' ++ 'o' :: '3' :: t) := by simp
        have he2 : (c :: s') ++ ['o', '3'] = c :: (s' ++ ['o', '3']) := by simp
        rw [he1, he2]
        by_cases hc : c = '\n'
        · simp only [subToEolGo, if_pos hc]
          rcases (ih s'.length hlt s' t rfl hnt).1 with ⟨w, z, hw1, hw2, hz⟩ | heq
          · left
            exact ⟨c :: w, z, by rw [hw1]; rfl, by rw [hw2]; rfl, hz⟩
          · right
            rw [heq]
        · simp only [subToEolGo, if_neg hc]
          exact (ih s'.length hlt s' t rfl hnt).2

theorem sanitizeCore_claude (s t : List Char) (hnt : '\n' ∉ t) :
    sanitizeCore (s ++ claudePat ++ t) = sanitizeCore (s ++ claudePat) := by
  unfold sanitizeCore
  simp only [List.map_append]
  rw [show claudePat.map asciiLowerChar = claudePat from by decide]
  rw [subToEol_seam claudePat (by decide) (by decide) (by decide) _ _
      (map_asciiLower_no_newline t hnt)]

theorem sanitizeCore_o3 (s t : List Char) (hnt : '\n' ∉ t) :
    sanitizeCore (s ++ o3Pat ++ t) = sanitizeCore (s ++ o3Pat) := by
  unfold sanitizeCore
  simp only [List.map_append]
  rw [show o3Pat.map asciiLowerChar = o3Pat from by decide]
  have ho3 : (o3Pat : List Char) = ['o', '3'] := by decide
  have hcore : subToEol o3Pat
      (subToEol claudePat (s.map asciiLowerChar ++ o3Pat ++ t.map asciiLowerChar)) =
      subToEol o3Pat (subToEol claudePat (s.map asciiLowerChar ++ o3Pat)) := by
    have hsh1 : s.map asciiLowerChar ++ o3Pat ++ t.map asciiLowerChar =
        s.map asciiLowerChar ++ 'o' :: '3' :: t.map asciiLowerChar := by
      rw [ho3]
      simp
    have hsh2 : s.map asciiLowerChar ++ o3Pat = s.map asciiLowerChar ++ ['o', '3'] := by
      rw [ho3]
    rw [hsh1, hsh2]
    unfold subToEol
    rcases (subClaude_split_aux (s.map asciiLowerChar).length (s.map asciiLowerChar)
        (t.map asciiLowerChar) rfl (map_asciiLower_no_newline t hnt)).1 with
      ⟨w, z, hw1, hw2, hz⟩ | heq
    · rw [hw1, hw2]
      have hseam := subToEol_seam o3Pat (by decide) (by decide) (by decide) w z hz
      unfold subToEol at hseam
      rw [ho3] at hseam
      rw [show w ++ ['o', '3'] ++ z = w ++ 'o' :: '3' :: z from by simp] at hseam
      exact hseam
    · rw [heq]
  rw [hcore]

theorem sanitize_all_allowed (l : List Char) :
    (sanitize_model_name l).all isTagAllowed = true := by
  unfold sanitize_model_name
  by_cases h6 : sanitizeCore l = []
  · rw [if_pos h6]
    decide
  · rw [if_neg h6]
    rw [List.all_eq_true]
    intro c hc
    have hc5 := mem_stripEnds _ _ _ hc
    rcases mem_collapseRunsGo (fun c => c == '-') '-' _ false c hc5 with h1 | h2
    · subst h1
      decide
    · rcases List.mem_map.mp h2.1 with ⟨d, _, hd⟩
      rw [← hd]
      by_cases hall : isTagAllowed d = true
      · rw [if_pos hall]
        exact hall
      · rw [if_neg hall]
        decide

theorem sanitize_no_pair (l : List Char) : ¬ (['-', '-'] <:+: sanitize_model_name l) := by
  unfold sanitize_model_name
  by_cases h6 : sanitizeCore l = []
  · rw [if_pos h6]
    decide
  · rw [if_neg h6]
    intro h
    exact (collapseRunsGo_no_pair (fun c => c == '-') '-' (by decide) _).1 false
      (h.trans (stripEnds_infix_self _ _))

theorem sanitize_head_no_dash (l : List Char) :
    ((sanitize_model_name l).head?.all fun c => !(c == '-')) = true := by
  unfold sanitize_model_name
  by_cases h6 : sanitizeCore l = []
  · rw [if_pos h6]
    decide
  · rw [if_neg h6]
    exact stripEnds_head _ _

theorem sanitize_last_no_dash (l : List Char) :
    ((sanitize_model_name l).getLast?.all fun c => !(c == '-')) = true := by
  unfold sanitize_model_name
  by_cases h6 : sanitizeCore l = []
  · rw [if_pos h6]
    decide
  · rw [if_neg h6]
    exact stripEnds_last _ _

/-- Claim C7 (amended). The sanitized model tag is lower-cased with every
character in the class letters, digits, dash, underscore; it has no two
adjacent dashes (runs outside the allowed class collapse to a single dash)
and no leading or trailing dash; and appending a NEWLINE-FREE tail after an
occurrence of "claude-opus-4", or after an occurrence of "o3", leaves the
tag unchanged — the claude collapse is applied first and the o3 collapse to
its output.  (As originally stated the truncation clause fails: the dot in
the source patterns does not match a newline, so text after a newline
survives.) -/
theorem claim_C7 : ∀ (l s t : List Char), '\n' ∉ t →
    ((sanitize_model_name l).all isTagAllowed = true) ∧
    ¬ (['-', '-'] <:+: sanitize_model_name l) ∧
    (((sanitize_model_name l).head?.all fun c => !(c == '-')) = true) ∧
    (((sanitize_model_name l).getLast?.all fun c => !(c == '-')) = true) ∧
    sanitize_model_name (s ++ "claude-opus-4".toList ++ t) =
      sanitize_model_name (s ++ "claude-opus-4".toList) ∧
    sanitize_model_name (s ++ "o3".toList ++ t) = sanitize_model_name (s ++ "o3".toList) := by
  intro l s t hnt
  refine ⟨sanitize_all_allowed l, sanitize_no_pair l, sanitize_head_no_dash l,
    sanitize_last_no_dash l, ?_, ?_⟩
  · show sanitize_model_name (s ++ claudePat ++ t) = sanitize_model_name (s ++ claudePat)
    unfold sanitize_model_name
    rw [sanitizeCore_claude s t hnt]
  · show sanitize_model_name (s ++ o3Pat ++ t) = sanitize_model_name (s ++ o3Pat)
    unfold sanitize_model_name
    rw [sanitizeCore_o3 s t hnt]

/-- Counterexample to claim C7 as stated: the input "o3a", newline, "b"
continues after the occurrence of "o3", yet is not truncated to "o3" — the
dot in the source's pattern does not match the newline, so the character
after it survives as "-b". -/
theorem claim_C7_cx :
    sanitize_model_name "o3a\nb".toList = "o3-b".toList ∧
    sanitize_model_name (([] : List Char) ++ "o3".toList ++ "a\nb".toList) ≠
      sanitize_model_name (([] : List Char) ++ "o3".toList) := by
  decide

theorem claim_C7_witness :
    sanitize_model_name "claude-opus-4-20250514".toList =
      sanitize_model_name "claude-opus-4".toList ∧
    (sanitize_model_name "claude-opus-4-20250514".toList).all isTagAllowed = true := by
  have h := claim_C7 "claude-opus-4-20250514".toList [] "-20250514".toList (by decide)
  constructor
  · have heq := h.2.2.2.2.1
    rw [show (([] : List Char) ++ "claude-opus-4".toList ++ "-20250514".toList) =
          "claude-opus-4-20250514".toList from by decide,
        show (([] : List Char) ++ "claude-opus-4".toList) = "claude-opus-4".toList from by
          decide] at heq
    exact heq
  · exact h.1

end EBC
